import Mathlib

/-!
Verification of the in-memory job queue repository (Go): the pi
Monte-Carlo processor in `main.go` and the queue engine interface in
`queue/interface.go` / `queue/worker.go`.

Go `uint64` values are modelled as `Nat` together with the modulus
`U64 = 2 ^ 64` where overflow matters; byte strings are modelled as
`List Char` (every byte produced by the program is ASCII).
-/

namespace BackendTest

/-- The modulus of Go `uint64` arithmetic. -/
def U64 : Nat := 2 ^ 64

/-- From src/main.go: `piComputeData` holds both the input and output of a
pi processing job.  `Total` is the number of random points to pick,
`InCircle` the number of picked points inside the unit circle.  Both are
Go `uint64` fields, modelled as `Nat` (valid when `< U64`). -/
structure piComputeData where
  InCircle : Nat
  Total : Nat
deriving Repr, DecidableEq

/-- The character for a single decimal digit, as emitted by the decimal
number encoding of `encoding/json` for `uint64` values. -/
def digitCh : Nat → Char
  | 0 => '0'
  | 1 => '1'
  | 2 => '2'
  | 3 => '3'
  | 4 => '4'
  | 5 => '5'
  | 6 => '6'
  | 7 => '7'
  | 8 => '8'
  | _ => '9'

/-- The numeric value of a decimal digit character. -/
def chDigit (c : Char) : Nat := c.toNat - 48

/-- Whether a character is a decimal digit. -/
def isDigitCh (c : Char) : Bool := 48 ≤ c.toNat && c.toNat ≤ 57

/-- Decimal rendering of a natural number, most significant digit first:
the number syntax produced by `encoding/json` for a `uint64` field. -/
def renderNat (n : Nat) : List Char :=
  if n = 0 then ['0'] else ((Nat.digits 10 n).reverse).map digitCh

/-- From src/main.go, `(*piComputeData).Marshal`: `json.NewEncoder(buf).Encode(pcd)`
writes the object with keys `"i"` (InCircle) and `"t"` (Total) in struct
order and appends a newline. -/
def marshalChars (pcd : piComputeData) : List Char :=
  '\x7b' :: '"' :: 'i' :: '"' :: ':' ::
    (renderNat pcd.InCircle ++ ',' :: '"' :: 't' :: '"' :: ':' ::
      (renderNat pcd.Total ++ ['\x7d', '\n']))

/-- From src/main.go, `(*piComputeData).Marshal`: encoding this struct as
JSON cannot fail, so the result is always `ok` of the encoded bytes. -/
def Marshal (pcd : piComputeData) : Except String (List Char) :=
  .ok (marshalChars pcd)

/-- Parse a (non-empty) run of decimal digits at the head of the input:
the JSON number syntax accepted for a `uint64` target.  Returns the value
and the unconsumed input. -/
def parseNat (s : List Char) : Option (Nat × List Char) :=
  if s.takeWhile isDigitCh = [] then none
  else some (Nat.ofDigits 10 (((s.takeWhile isDigitCh).map chDigit).reverse),
             s.dropWhile isDigitCh)

/-- Parse a JSON string literal (no escape sequences, which the keys of
`piComputeData` never need) at the head of the input. -/
def parseJString (s : List Char) : Option (List Char × List Char) :=
  match s with
  | '"' :: rest =>
    match rest.dropWhile (fun c => c != '"') with
    | '"' :: r2 => some (rest.takeWhile (fun c => c != '"'), r2)
    | _ => none
  | _ => none

/-- Parse one `"key":number` member of a JSON object. -/
def parsePair (s : List Char) : Option ((List Char × Nat) × List Char) :=
  match parseJString s with
  | some (k, r1) =>
    match r1 with
    | ':' :: r2 =>
      match parseNat r2 with
      | some (n, r3) => some ((k, n), r3)
      | none => none
    | _ => none
  | none => none

/-- Parse the members of a JSON object after the opening brace, fuelled by
an upper bound on the number of members. -/
def parsePairsAux : Nat → List Char → List (List Char × Nat) →
    Option (List (List Char × Nat) × List Char)
  | 0, _, _ => none
  | fuel + 1, s, acc =>
    match parsePair s with
    | none => none
    | some (p, rest) =>
      match rest with
      | ',' :: r2 => parsePairsAux fuel r2 (acc ++ [p])
      | '\x7d' :: r2 => some (acc ++ [p], r2)
      | _ => none

/-- Parse a JSON object of string-keyed number members. -/
def parseObject (s : List Char) : Option (List (List Char × Nat) × List Char) :=
  match s with
  | [] => none
  | c :: r =>
    if c = '\x7b' then
      if r.head? = some '\x7d' then some ([], r.tail)
      else parsePairsAux (r.length + 1) r []
    else none

/-- Fill the fields of a `piComputeData` from parsed object members, the
way `encoding/json` decodes into a struct: key `"i"` sets `InCircle`, key
`"t"` sets `Total`, unknown keys are ignored, later members win, and a
value out of `uint64` range is an error. -/
def applyPairs : piComputeData → List (List Char × Nat) → Except String piComputeData
  | pcd, [] => .ok pcd
  | pcd, (k, v) :: rest =>
    if k = ['i'] then
      if v < U64 then applyPairs { pcd with InCircle := v } rest
      else .error "json: cannot unmarshal number into InCircle: out of range"
    else if k = ['t'] then
      if v < U64 then applyPairs { pcd with Total := v } rest
      else .error "json: cannot unmarshal number into Total: out of range"
    else applyPairs pcd rest

/-- From src/main.go, `(*piComputeData).Unmarshal`: decode one JSON value
from the input into the receiver (`json.NewDecoder(...).Decode(pcd)`);
input after the first value (the trailing newline) is left unread. -/
def Unmarshal (pcd : piComputeData) (b : List Char) : Except String piComputeData :=
  match parseObject b with
  | some (ps, _) => applyPairs pcd ps
  | none => .error "json: invalid input"

/-- The shared cancellation signal (§9 of the spec): the abstraction of
the Go context, a settable-once flag. -/
structure Ctx where
  cancelled : Bool
deriving Repr, DecidableEq

/-- From src/main.go, the loop body of `Compute`: if the sampled point is
inside the unit circle, increment `InCircle` with `uint64` wrap-around.
Sample coordinates are modelled as exact rationals. -/
def computeStep (p : ℚ × ℚ) (ic : Nat) : Nat :=
  if p.1 * p.1 + p.2 * p.2 ≤ 1 then (ic + 1) % U64 else ic

/-- From src/main.go, the loop of `Compute`: fold `computeStep` over the
sample stream from index `i`, `k` iterations, starting from count `ic`. -/
def computeFrom (samples : Nat → ℚ × ℚ) : Nat → Nat → Nat → Nat
  | _, 0, ic => ic
  | i, k + 1, ic => computeFrom samples (i + 1) k (computeStep (samples i) ic)

/-- The number of stream points with index in the window of length `k`
starting at `i` that lie inside the unit circle. -/
def countFrom (samples : Nat → ℚ × ℚ) : Nat → Nat → Nat
  | _, 0 => 0
  | i, k + 1 =>
    (if (samples i).1 * (samples i).1 + (samples i).2 * (samples i).2 ≤ 1
     then 1 else 0) + countFrom samples (i + 1) k

set_option linter.unusedVariables false in
/-- From src/main.go, `(*piComputeData).Compute`: picks `Total` points
from the pseudo-random stream (modelled as an arbitrary stream of sample
points), counts those inside the unit circle into `InCircle`, and always
returns a nil error.  The context argument is ignored by the source. -/
def Compute (ctx : Ctx) (samples : Nat → ℚ × ℚ) (pcd : piComputeData) :
    piComputeData × Option String :=
  (⟨computeFrom samples 0 pcd.Total pcd.InCircle, pcd.Total⟩, none)

/-- From src/queue/interface.go: the job access a processor receives,
modelled by the observable outcomes of its two data operations:
`getData` is the result of unmarshalling the job payload into a fresh
`piComputeData`, and `setData` the error outcome of storing a value
back (nil on success). -/
structure JobProcessingAccess where
  getData : Except String piComputeData
  setData : Ctx → piComputeData → Option String

/-- From src/main.go, `piProcessor.Process`: GetData, then Compute, then
SetData, returning the first error among the three operations and nil
when all succeed. -/
def Process (ctx : Ctx) (samples : Nat → ℚ × ℚ) (j : JobProcessingAccess) :
    Option String :=
  match j.getData with
  | .error e => some e
  | .ok pcd =>
    match (Compute ctx samples pcd).2 with
    | some e => some e
    | none => j.setData ctx (Compute ctx samples pcd).1

/-- From src/queue/interface.go: the state of a job. -/
inductive State where
  | Queued
  | Processing
  | Failed
  | Finished
deriving Repr, DecidableEq

/-- Modelled from the spec: the error kinds of §7 (the source declares no
error values; only the interface documentation and the spec describe
them). -/
inductive QErr where
  | DuplicateID
  | NotFound
  | SerializationError
  | Cancelled
  | InvalidConfiguration
  | ProcessingError (msg : String)
deriving Repr, DecidableEq

/-- Modelled from the spec: a Job Record (§3): identity, current state,
payload bytes and last error message. -/
structure JobRec where
  id : String
  state : State
  payload : List Char
  errorMessage : String
deriving Repr, DecidableEq

/-- Modelled from the spec: the Job Store's identity-to-record mapping,
as the list of records in creation order. -/
abbrev Store := List JobRec

/-- Look up the record with the given id. -/
def findJob (st : Store) (id : String) : Option JobRec :=
  List.find? (fun r => r.id == id) st

/-- Modelled from the spec: Job Store `create` (§4.2) behind the Client
Facade `CreateJob` (§4.5).  Rejects with Cancelled when the signal has
fired, fails with DuplicateID on an existing id and with
SerializationError when the payload fails to marshal; otherwise inserts a
Queued record holding the marshalled payload and an empty error message.
An error inserts nothing: the caller keeps the unchanged input store. -/
def CreateJob (ctx : Ctx) (st : Store) (id : String)
    (mp : Except String (List Char)) : Except QErr Store :=
  if ctx.cancelled then .error .Cancelled
  else if (findJob st id).isSome then .error .DuplicateID
  else
    match mp with
    | .error _ => .error .SerializationError
    | .ok bs => .ok (st ++ [⟨id, .Queued, bs, ""⟩])

/-- Modelled from the spec: the Client Facade `GetJob` (§4.5): the
Cancelled error when the signal has already fired, otherwise `ok` of the
store lookup — `none` for not found, the job for found. -/
def GetJob (ctx : Ctx) (st : Store) (id : String) :
    Except QErr (Option JobRec) :=
  if ctx.cancelled then .error .Cancelled else .ok (findJob st id)

/-- A sequence of `CreateJob` calls with one id against one store: the
list of each call's error outcome (`none` meaning success) and the final
store.  A failing call passes the store through unchanged. -/
def createSeq (ctx : Ctx) : Store → String → List (Except String (List Char)) →
    List (Option QErr) × Store
  | st, _, [] => ([], st)
  | st, id, mp :: rest =>
    match CreateJob ctx st id mp with
    | .ok st2 =>
      let pr := createSeq ctx st2 id rest
      (none :: pr.1, pr.2)
    | .error e =>
      let pr := createSeq ctx st id rest
      (some e :: pr.1, pr.2)

/-- From src/queue/interface.go: a Processor defines the worker's job
execution, returning nil to mark the job Finished and an error to mark it
Failed. -/
def Processor := Ctx → JobProcessingAccess → Option String

/-- From src/queue/interface.go: the Client interface — CreateJob and
GetJob over the store, both cancellation-aware. -/
structure Client where
  createJob : Ctx → Store → String → Except String (List Char) → Except QErr Store
  getJob : Ctx → Store → String → Except QErr (Option JobRec)

/-- Modelled from the spec: the per-unit state of one worker execution
unit of the Dispatcher (§4.4): the job it currently has in flight, and
whether its loop has terminated. -/
structure UnitSt where
  busy : Option String
  exited : Bool
deriving Repr, DecidableEq

/-- Modelled from the spec: a configuration of the running engine — the
shared Job Store, the launched execution units, the cancellation signal
and whether `run` has returned. -/
structure Sys where
  store : Store
  units : List UnitSt
  cancelled : Bool
  returned : Bool

/-- From src/queue/interface.go: the Worker interface, wrapping `Run`. -/
structure Worker where
  run : Ctx → Store → Int → Except QErr Sys

set_option linter.unusedVariables false in
/-- From src/queue/worker.go: `New` takes a processor and returns both a
client and a worker; the source body is `return nil, nil`. -/
def New (p : Processor) : Option Client × Option Worker :=
  (none, none)

/-- Modelled from the spec: entry of `run` (§4.4): with a non-positive
worker count it returns immediately with InvalidConfiguration, launching
no execution units; otherwise it launches exactly `workers` idle units
over the store, giving the initial configuration of the dispatch
system. -/
def runStart (st : Store) (workers : Int) : Except QErr Sys :=
  if workers ≤ 0 then .error .InvalidConfiguration
  else .ok ⟨st, List.replicate workers.toNat ⟨none, false⟩, false, false⟩

/-- Update the record with the given id. -/
def setJob (st : Store) (id : String) (f : JobRec → JobRec) : Store :=
  st.map (fun r => if r.id == id then f r else r)

/-- Events of the engine's transition system. -/
inductive Ev where
  | create (id : String) (payload : List Char)
  | cancel
  | claim (u : Nat) (id : String)
  | finish (u : Nat) (id : String) (result : List Char)
  | fail (u : Nat) (id : String) (msg : String)
  | exitUnit (u : Nat)
  | ret
deriving Repr, DecidableEq

/-- Modelled from the spec: one atomic transition of the engine
(§4.2–§4.5, §5).  Creation inserts a fresh Queued record while the signal
is off; claiming atomically moves a Queued job to Processing for exactly
one idle live unit while the signal is off; completion moves the claimed
job to Finished with its result payload, failure to Failed with a
non-empty error description; a unit's loop exits once the signal is set
and it has nothing in flight; and `run` returns (the rendezvous) only
when every launched unit has exited. -/
inductive StepL : Sys → Ev → Sys → Prop where
  | create (s : Sys) (id : String) (bs : List Char) :
      s.cancelled = false →
      findJob s.store id = none →
      StepL s (.create id bs)
        { s with store := s.store ++ [⟨id, .Queued, bs, ""⟩] }
  | cancel (s : Sys) :
      s.cancelled = false →
      StepL s .cancel { s with cancelled := true }
  | claim (s : Sys) (u : Nat) (id : String) (r : JobRec) :
      s.cancelled = false →
      s.units[u]? = some ⟨none, false⟩ →
      findJob s.store id = some r →
      r.state = .Queued →
      StepL s (.claim u id)
        { s with
            store := setJob s.store id (fun j => { j with state := .Processing }),
            units := s.units.set u ⟨some id, false⟩ }
  | finish (s : Sys) (u : Nat) (id : String) (bs : List Char) :
      s.units[u]? = some ⟨some id, false⟩ →
      StepL s (.finish u id bs)
        { s with
            store := setJob s.store id
              (fun j => { j with state := .Finished, payload := bs }),
            units := s.units.set u ⟨none, false⟩ }
  | fail (s : Sys) (u : Nat) (id : String) (msg : String) :
      s.units[u]? = some ⟨some id, false⟩ →
      StepL s (.fail u id msg)
        { s with
            store := setJob s.store id
              (fun j => { j with state := .Failed,
                                 errorMessage := "processing error: " ++ msg }),
            units := s.units.set u ⟨none, false⟩ }
  | exitUnit (s : Sys) (u : Nat) :
      s.cancelled = true →
      s.units[u]? = some ⟨none, false⟩ →
      StepL s (.exitUnit u) { s with units := s.units.set u ⟨none, true⟩ }
  | ret (s : Sys) :
      (∀ x ∈ s.units, x.exited = true) →
      s.returned = false →
      StepL s .ret { s with returned := true }

/-- A finite execution of the engine: the list of events from one
configuration to another. -/
inductive Trace : Sys → List Ev → Sys → Prop where
  | nil (s : Sys) : Trace s [] s
  | cons (s1 s2 s3 : Sys) (e : Ev) (evs : List Ev) :
      StepL s1 e s2 → Trace s2 evs s3 → Trace s1 (e :: evs) s3

/-- Whether an event claims the given job. -/
def isClaimOf (id : String) (e : Ev) : Bool :=
  match e with
  | .claim _ j => j == id
  | _ => false

/-- How many events of a trace claim the given job. -/
def claimCount (evs : List Ev) (id : String) : Nat :=
  evs.countP (isClaimOf id)

/-- Once `run` has returned, every launched execution unit has exited. -/
def retInv (s : Sys) : Prop :=
  s.returned = true → ∀ x ∈ s.units, x.exited = true

/-- The record invariant of §3: the error message is non-empty exactly on
Failed records. -/
def invRec (r : JobRec) : Prop :=
  r.errorMessage ≠ "" ↔ r.state = .Failed

/-- All records of a store satisfy the record invariant. -/
def invStore (st : Store) : Prop := ∀ r ∈ st, invRec r

/-- Record identities are unique across the store (§3). -/
def idsNodup (st : Store) : Prop :=
  (List.map (fun r => r.id) st).Nodup

/-- Every job a unit has in flight is a Processing record of the store. -/
def busyInv (s : Sys) : Prop :=
  ∀ (u : Nat) (x : UnitSt) (id : String),
    s.units[u]? = some x → x.busy = some id →
    ∃ r, findJob s.store id = some r ∧ r.state = .Processing

/-- No two distinct units have the same job in flight. -/
def busyDistinct (s : Sys) : Prop :=
  ∀ (i j : Nat) (a b : UnitSt) (id : String),
    s.units[i]? = some a → s.units[j]? = some b →
    a.busy = some id → b.busy = some id → i = j

/-- The inductive system invariant: record invariant, unique identities,
and consistency of the units' in-flight jobs. -/
def SysInv (s : Sys) : Prop :=
  invStore s.store ∧ idsNodup s.store ∧ busyInv s ∧ busyDistinct s

/-- A job currently Queued in the store. -/
def jobQueued (s : Sys) (id : String) : Prop :=
  ∃ r, findJob s.store id = some r ∧ r.state = .Queued

/-- A job present in the store and out of the Queued state. -/
def jobOut (s : Sys) (id : String) : Prop :=
  ∃ r, findJob s.store id = some r ∧ r.state ≠ .Queued

theorem takeWhile_append_all {α : Type} {p : α → Bool} :
    ∀ (l r : List α), (∀ c ∈ l, p c = true) →
      (∀ c, r.head? = some c → p c = false) →
      (l ++ r).takeWhile p = l := by
  intro l r hl hr
  induction l with
  | nil =>
    simp only [List.nil_append]
    cases r with
    | nil => rfl
    | cons c rs => simp [List.takeWhile_cons, hr c rfl]
  | cons a as ih =>
    simp only [List.cons_append, List.takeWhile_cons, hl a (by simp)]
    simp only [if_true]
    rw [ih (fun c hc => hl c (by simp [hc]))]

theorem dropWhile_append_all {α : Type} {p : α → Bool} :
    ∀ (l r : List α), (∀ c ∈ l, p c = true) →
      (∀ c, r.head? = some c → p c = false) →
      (l ++ r).dropWhile p = r := by
  intro l r hl hr
  induction l with
  | nil =>
    simp only [List.nil_append]
    cases r with
    | nil => rfl
    | cons c rs => simp [List.dropWhile_cons, hr c rfl]
  | cons a as ih =>
    simp only [List.cons_append, List.dropWhile_cons, hl a (by simp)]
    simp only [if_true]
    exact ih (fun c hc => hl c (by simp [hc]))

theorem renderNat_ne_nil (n : Nat) : renderNat n ≠ [] := by
  unfold renderNat
  split
  · simp
  · next h =>
    simp only [ne_eq, List.map_eq_nil_iff, List.reverse_eq_nil_iff]
    exact Nat.digits_ne_nil_iff_ne_zero.mpr h

theorem digitCh_isDigit {d : Nat} (hd : d < 10) : isDigitCh (digitCh d) = true := by
  interval_cases d <;> decide

theorem chDigit_digitCh {d : Nat} (hd : d < 10) : chDigit (digitCh d) = d := by
  interval_cases d <;> decide

theorem renderNat_all_digits (n : Nat) : ∀ c ∈ renderNat n, isDigitCh c = true := by
  intro c hc
  unfold renderNat at hc
  split at hc
  · simp at hc
    subst hc
    decide
  · simp only [List.mem_map, List.mem_reverse] at hc
    obtain ⟨d, hd, rfl⟩ := hc
    exact digitCh_isDigit (Nat.digits_lt_base (by norm_num) hd)

theorem decode_renderNat (n : Nat) :
    Nat.ofDigits 10 (((renderNat n).map chDigit).reverse) = n := by
  unfold renderNat
  split
  · next h => subst h; decide
  · rw [List.map_map]
    have hm : (Nat.digits 10 n).reverse.map (chDigit ∘ digitCh)
        = (Nat.digits 10 n).reverse.map id := by
      apply List.map_congr_left
      intro d hd
      rw [List.mem_reverse] at hd
      exact chDigit_digitCh (Nat.digits_lt_base (by norm_num) hd)
    rw [hm, List.map_id, List.reverse_reverse, Nat.ofDigits_digits]

theorem parseNat_renderNat (n : Nat) (c : Char) (r : List Char)
    (hc : isDigitCh c = false) :
    parseNat (renderNat n ++ c :: r) = some (n, c :: r) := by
  have hhead : ∀ d, (c :: r).head? = some d → isDigitCh d = false := by
    intro d hd
    simp only [List.head?_cons, Option.some.injEq] at hd
    subst hd
    exact hc
  have ht : (renderNat n ++ c :: r).takeWhile isDigitCh = renderNat n :=
    takeWhile_append_all _ _ (renderNat_all_digits n) hhead
  have hd : (renderNat n ++ c :: r).dropWhile isDigitCh = c :: r :=
    dropWhile_append_all _ _ (renderNat_all_digits n) hhead
  unfold parseNat
  rw [ht, hd, if_neg (renderNat_ne_nil n), decode_renderNat]

theorem parseJString_key (k : Char) (r : List Char) (hk : (k != '"') = true) :
    parseJString ('"' :: k :: '"' :: r) = some ([k], r) := by
  unfold parseJString
  simp [List.dropWhile_cons, List.takeWhile_cons, hk]

theorem parsePair_key (k : Char) (n : Nat) (c : Char) (r : List Char)
    (hk : (k != '"') = true) (hc : isDigitCh c = false) :
    parsePair ('"' :: k :: '"' :: ':' :: (renderNat n ++ c :: r))
      = some (([k], n), c :: r) := by
  unfold parsePair
  rw [parseJString_key k _ hk]
  simp only [parseNat_renderNat n c r hc]

theorem parsePairsAux_two (f : Nat) (hf : 2 ≤ f) (a t : Nat)
    (acc : List (List Char × Nat)) :
    parsePairsAux f
      ('"' :: 'i' :: '"' :: ':' ::
        (renderNat a ++ ',' :: '"' :: 't' :: '"' :: ':' ::
          (renderNat t ++ ['\x7d', '\n']))) acc
      = some (acc ++ [(['i'], a), (['t'], t)], ['\n']) := by
  obtain ⟨k, rfl⟩ : ∃ k, f = k + 1 + 1 := ⟨f - 2, by omega⟩
  have h1 := parsePair_key 'i' a ','
    ('"' :: 't' :: '"' :: ':' :: (renderNat t ++ ['\x7d', '\n']))
    (by decide) (by decide)
  have h2 := parsePair_key 't' t '\x7d' ['\n'] (by decide) (by decide)
  simp [parsePairsAux, h1, h2]

theorem parseObject_marshal (v : piComputeData) :
    parseObject (marshalChars v)
      = some ([(['i'], v.InCircle), (['t'], v.Total)], ['\n']) := by
  unfold marshalChars
  simp only [parseObject, List.head?_cons, List.length_cons, reduceIte]
  rw [parsePairsAux_two _ (by omega) v.InCircle v.Total []]
  simp

theorem applyPairs_fields (pcd0 : piComputeData) (a t : Nat)
    (ha : a < U64) (htl : t < U64) :
    applyPairs pcd0 [(['i'], a), (['t'], t)] = .ok ⟨a, t⟩ := by
  simp [applyPairs, ha, htl]

/-- Claim C1: for every valid `piComputeData` value `v` (fields in `uint64`
range), `Unmarshal` applied to the bytes produced by a successful
`Marshal v` succeeds and yields a value observably equal to `v` (equal
`InCircle` and `Total` fields), whatever the prior contents of the
receiver. -/
theorem c1_marshal_unmarshal_roundtrip (v w : piComputeData) (bs : List Char)
    (hi : v.InCircle < U64) (ht : v.Total < U64)
    (hm : Marshal v = .ok bs) :
    Unmarshal w bs = .ok v := by
  have hbs : bs = marshalChars v := by
    simpa [Marshal] using hm.symm
  subst hbs
  unfold Unmarshal
  rw [parseObject_marshal]
  show applyPairs w [(['i'], v.InCircle), (['t'], v.Total)] = .ok v
  rw [applyPairs_fields w v.InCircle v.Total hi ht]

/-- Witness for claim C1 at the concrete value with `InCircle = 7`,
`Total = 12`, decoded into a receiver holding different values. -/
theorem c1_marshal_unmarshal_roundtrip_witness :
    Unmarshal ⟨3, 4⟩ (marshalChars ⟨7, 12⟩) = .ok ⟨7, 12⟩ :=
  c1_marshal_unmarshal_roundtrip ⟨7, 12⟩ ⟨3, 4⟩ (marshalChars ⟨7, 12⟩)
    (by decide) (by decide) rfl

/-- Claim C2: for every Processor `p`, `queue.New p` returns a nil Client
and a nil Worker: every operation the spec attributes to the Client
Facade, Job Store and Dispatcher is unimplemented behind the public
constructor. -/
theorem c2_new_returns_nil (p : Processor) : New p = (none, none) := rfl

/-- Counterexample to claim C3 as stated: when the cancellation signal has
already fired, `GetJob` on an id absent from the store returns the
Cancelled error, not a nil job with a nil error. -/
theorem c3_getjob_counterexample :
    findJob [] "j" = none ∧ GetJob ⟨true⟩ [] "j" = .error .Cancelled ∧
      GetJob ⟨true⟩ [] "j" ≠ .ok none :=
  ⟨rfl, rfl, by simp [GetJob]⟩

/-- Claim C3 (amended): provided the cancellation signal has not fired,
`GetJob` on an id absent from the store returns a nil job and a nil
error; not-found is never conflated with an error result. -/
theorem c3_getjob_not_found (ctx : Ctx) (st : Store) (id : String)
    (hc : ctx.cancelled = false) (h : findJob st id = none) :
    GetJob ctx st id = .ok none := by
  simp [GetJob, hc, h]

/-- Witness for claim C3: a live signal and an empty store. -/
theorem c3_getjob_not_found_witness :
    GetJob ⟨false⟩ [] "j" = .ok none :=
  c3_getjob_not_found ⟨false⟩ [] "j" rfl rfl

/-- Claim C4: for every non-positive workerCount, `run` returns
immediately with an InvalidConfiguration error and performs no dispatch:
no system configuration is ever launched, so no job leaves Queued and no
execution unit is started. -/
theorem c4_run_invalid_configuration (st : Store) (workers : Int)
    (h : workers ≤ 0) :
    runStart st workers = .error .InvalidConfiguration ∧
      ∀ s : Sys, runStart st workers ≠ .ok s := by
  refine ⟨by simp [runStart, h], ?_⟩
  intro s hs
  simp [runStart, h] at hs

/-- Witness for claim C4 at workerCount 0. -/
theorem c4_run_invalid_configuration_witness :
    runStart [] 0 = .error .InvalidConfiguration ∧
      ∀ s : Sys, runStart [] 0 ≠ .ok s :=
  c4_run_invalid_configuration [] 0 (by decide)

theorem findJob_append_one (st : Store) (nr : JobRec) (id : String)
    (h : findJob st id = none) (hid : nr.id = id) :
    findJob (st ++ [nr]) id = some nr := by
  unfold findJob at *
  rw [List.find?_append, h]
  simp [hid]

theorem createSeq_all_dup (ctx : Ctx) (st : Store) (id : String)
    (hc : ctx.cancelled = false)
    (h : (findJob st id).isSome = true)
    (mps : List (Except String (List Char))) :
    createSeq ctx st id mps
      = (mps.map (fun _ => some QErr.DuplicateID), st) := by
  induction mps with
  | nil => rfl
  | cons mp rest ih =>
    simp only [createSeq]
    rw [show CreateJob ctx st id mp = Except.error QErr.DuplicateID from by
      simp [CreateJob, hc, h]]
    simp [ih]

/-- Counterexample to claim C5 as stated: a create call made after the
cancellation signal has fired fails with Cancelled — neither succeeding
nor failing with DuplicateID — so among such calls with one id it is not
the case that exactly one succeeds and all others fail with
DuplicateID. -/
theorem c5_create_counterexample :
    createSeq ⟨true⟩ [] "j" [.ok ['a']] = ([some QErr.Cancelled], []) ∧
      some QErr.Cancelled ≠ (none : Option QErr) ∧
      some QErr.Cancelled ≠ some QErr.DuplicateID :=
  ⟨rfl, by decide, by decide⟩

/-- Claim C5 (amended): provided the cancellation signal has not fired and
every payload marshals successfully, among any sequence of create calls
with the same id against one store not yet holding that id, exactly the
first call succeeds — inserting a record with state Queued, payload the
marshalled initial payload and an empty error message — and every later
call fails with DuplicateID; failing calls insert nothing, so the final
store extends the input store by exactly the one record. -/
theorem c5_create_exactly_once (ctx : Ctx) (st : Store) (id : String)
    (bs : List Char) (rest : List (List Char))
    (hc : ctx.cancelled = false) (h : findJob st id = none) :
    createSeq ctx st id (.ok bs :: List.map Except.ok rest)
      = (none :: List.map (fun _ => some QErr.DuplicateID) rest,
         st ++ [⟨id, State.Queued, bs, ""⟩]) := by
  simp only [createSeq]
  rw [show CreateJob ctx st id (.ok bs)
      = Except.ok (st ++ [⟨id, State.Queued, bs, ""⟩]) from by
    simp [CreateJob, hc, h]]
  change (none :: (createSeq ctx (st ++ [⟨id, State.Queued, bs, ""⟩]) id
        (List.map Except.ok rest)).1,
      (createSeq ctx (st ++ [⟨id, State.Queued, bs, ""⟩]) id
        (List.map Except.ok rest)).2) = _
  have hdup := createSeq_all_dup ctx
    (st ++ [(⟨id, State.Queued, bs, ""⟩ : JobRec)]) id hc
    (by rw [findJob_append_one st ⟨id, State.Queued, bs, ""⟩ id h rfl]; rfl)
    (List.map Except.ok rest)
  rw [hdup]
  simp [List.map_map, Function.comp_def]

/-- Witness for claim C5: two create calls with id "j" against the empty
store; the first succeeds and inserts the Queued record, the second fails
with DuplicateID. -/
theorem c5_create_exactly_once_witness :
    createSeq ⟨false⟩ [] "j" [.ok ['a'], .ok ['b']]
      = ([none, some QErr.DuplicateID], [⟨"j", State.Queued, ['a'], ""⟩]) :=
  c5_create_exactly_once ⟨false⟩ [] "j" ['a'] [['b']] rfl rfl

theorem setJob_id (tid : String) (f : JobRec → JobRec)
    (hf : ∀ j, (f j).id = j.id) (r : JobRec) :
    (if r.id == tid then f r else r).id = r.id := by
  split
  · exact hf r
  · rfl

theorem findJob_setJob (st : Store) (tid id : String) (f : JobRec → JobRec)
    (hf : ∀ j, (f j).id = j.id) :
    findJob (setJob st tid f) id
      = Option.map (fun r => if r.id == tid then f r else r) (findJob st id) := by
  induction st with
  | nil => rfl
  | cons a as ih =>
    unfold setJob findJob at *
    simp only [List.map_cons]
    by_cases ha : (a.id == id) = true
    · have hpos : ((if a.id == tid then f a else a).id == id) = true := by
        rw [setJob_id tid f hf a]; exact ha
      rw [@List.find?_cons_of_pos _ (fun r => r.id == id) _
            (List.map (fun r => if r.id == tid then f r else r) as) hpos,
          @List.find?_cons_of_pos _ (fun r => r.id == id) a as ha]
      rfl
    · have hneg : ¬ ((if a.id == tid then f a else a).id == id) = true := by
        rw [setJob_id tid f hf a]; exact ha
      rw [@List.find?_cons_of_neg _ (fun r => r.id == id) _
            (List.map (fun r => if r.id == tid then f r else r) as) hneg,
          @List.find?_cons_of_neg _ (fun r => r.id == id) a as ha,
          ih]

theorem findJob_append_keep (st : Store) (nr : JobRec) (id : String)
    (r : JobRec) (h : findJob st id = some r) :
    findJob (st ++ [nr]) id = some r := by
  unfold findJob at *
  rw [List.find?_append, h, Option.or_some]

theorem setJob_ids (st : Store) (tid : String) (f : JobRec → JobRec)
    (hf : ∀ j, (f j).id = j.id) :
    List.map (fun r => r.id) (setJob st tid f) = List.map (fun r => r.id) st := by
  unfold setJob
  rw [List.map_map]
  apply List.map_congr_left
  intro r _
  exact setJob_id tid f hf r

theorem findJob_eq_of_mem (st : Store) (id : String) (r : JobRec)
    (hnd : idsNodup st) (hm : r ∈ st) (hid : r.id = id) :
    findJob st id = some r := by
  induction st with
  | nil => cases hm
  | cons a as ih =>
    unfold findJob
    unfold idsNodup at hnd
    simp only [List.map_cons, List.nodup_cons] at hnd
    rcases List.mem_cons.mp hm with rfl | hm2
    · rw [List.find?_cons_of_pos _ (by simp [hid])]
    · by_cases ha : (a.id == id) = true
      · exfalso
        apply hnd.1
        rw [show a.id = id from by simpa using ha, ← hid]
        exact List.mem_map.mpr ⟨r, hm2, rfl⟩
      · rw [@List.find?_cons_of_neg _ (fun j => j.id == id) a as ha]
        exact ih hnd.2 hm2

theorem processing_error_ne_empty (msg : String) :
    ("processing error: " ++ msg) ≠ "" := by
  intro h
  have hl := congrArg String.length h
  rw [String.length_append] at hl
  have h1 : ("processing error: ").length = 18 := rfl
  have h2 : ("" : String).length = 0 := rfl
  omega

theorem findJob_id (st : Store) (id : String) (r : JobRec)
    (h : findJob st id = some r) : r.id = id := by
  have := List.find?_some h
  simpa using this

theorem findJob_mem (st : Store) (id : String) (r : JobRec)
    (h : findJob st id = some r) : r ∈ st :=
  List.mem_of_find?_eq_some h

theorem invRec_empty_of_ne_failed (r : JobRec) (h : invRec r)
    (hs : r.state ≠ .Failed) : r.errorMessage = "" := by
  by_contra hne
  exact hs (h.mp hne)

theorem findJob_unique (st : Store) (id : String) (r r' : JobRec)
    (hnd : idsNodup st) (hfind : findJob st id = some r)
    (hm : r' ∈ st) (hid : r'.id = id) : r' = r := by
  have h2 := findJob_eq_of_mem st id r' hnd hm hid
  rw [hfind] at h2
  injection h2 with h3
  exact h3.symm

theorem invStore_setJob (st : Store) (id : String) (f : JobRec → JobRec)
    (hinv : invStore st)
    (hf : ∀ r ∈ st, r.id = id → invRec (f r)) :
    invStore (setJob st id f) := by
  intro r' hr'
  unfold setJob at hr'
  obtain ⟨r, hrm, rfl⟩ := List.mem_map.mp hr'
  by_cases h : (r.id == id) = true
  · rw [if_pos h]
    exact hf r hrm (by simpa using h)
  · rw [if_neg h]
    exact hinv r hrm

theorem stepInv (s1 s2 : Sys) (e : Ev) (hs : StepL s1 e s2)
    (hinv : SysInv s1) : SysInv s2 := by
  obtain ⟨hstore, hnd, hbusy, hdist⟩ := hinv
  cases hs with
  | create id bs hc hnone =>
    refine ⟨?_, ?_, ?_, hdist⟩
    · intro r hr
      rcases List.mem_append.mp hr with h | h
      · exact hstore r h
      · rcases List.mem_singleton.mp h with rfl
        unfold invRec
        simp
    · have h5 : idsNodup (s1.store ++ [⟨id, State.Queued, bs, ""⟩]) := by
        unfold idsNodup at hnd ⊢
        rw [List.map_append]
        have hnotin : id ∉ List.map (fun r => r.id) s1.store := by
          intro hmem
          obtain ⟨r, hrm, hrid⟩ := List.mem_map.mp hmem
          have hnp := List.find?_eq_none.mp hnone r hrm
          simp [hrid] at hnp
        simp [List.nodup_append, hnd, hnotin]
      exact h5
    · intro u x id' h1 h2
      obtain ⟨r, hfind, hproc⟩ := hbusy u x id' h1 h2
      exact ⟨r, findJob_append_keep _ _ _ _ hfind, hproc⟩
  | cancel hc =>
    exact ⟨hstore, hnd, hbusy, hdist⟩
  | claim u id r hc hu hfind hqueued =>
    have hrid : r.id = id := findJob_id _ _ _ hfind
    have hulen : u < s1.units.length := (List.getElem?_eq_some.mp hu).1
    refine ⟨?_, ?_, ?_, ?_⟩
    · apply invStore_setJob _ _ _ hstore
      intro r' hm hid
      have hr' : r' = r := findJob_unique s1.store id r r' hnd hfind hm hid
      subst hr'
      have hemp : r'.errorMessage = "" :=
        invRec_empty_of_ne_failed r' (hstore r' hm) (by rw [hqueued]; decide)
      unfold invRec
      simp [hemp]
    · have h5 : idsNodup (setJob s1.store id
          (fun j => { j with state := State.Processing })) := by
        unfold idsNodup at hnd ⊢
        rw [setJob_ids s1.store id
          (fun j => { j with state := State.Processing }) (fun j => rfl)]
        exact hnd
      exact h5
    · intro v x id' h1 h2
      by_cases hv : u = v
      · subst hv
        rw [List.getElem?_set_self hulen] at h1
        injection h1 with h1
        subst h1
        injection h2 with h2
        subst h2
        have hres : findJob (setJob s1.store id
              (fun j => { j with state := State.Processing })) id
            = some { r with state := State.Processing } := by
          rw [findJob_setJob s1.store id id
            (fun j => { j with state := State.Processing }) (fun j => rfl), hfind]
          simp [hrid]
        exact ⟨{ r with state := State.Processing }, hres, rfl⟩
      · rw [List.getElem?_set_ne hv] at h1
        obtain ⟨r', hfind', hproc'⟩ := hbusy v x id' h1 h2
        have hne : id' ≠ id := by
          intro heq
          subst heq
          rw [hfind'] at hfind
          injection hfind with h4
          rw [← h4] at hqueued
          rw [hproc'] at hqueued
          cases hqueued
        have hres : findJob (setJob s1.store id
              (fun j => { j with state := State.Processing })) id'
            = some r' := by
          rw [findJob_setJob s1.store id id'
            (fun j => { j with state := State.Processing }) (fun j => rfl), hfind']
          have hne2 : r'.id ≠ id := by
            rw [findJob_id _ _ _ hfind']
            exact hne
          simp [hne2]
        exact ⟨r', hres, hproc'⟩
    · intro i j a b id'' h1 h2 ha hb
      by_cases hi : u = i <;> by_cases hj : u = j
      · rw [← hi, ← hj]
      · exfalso
        rw [← hi, List.getElem?_set_self hulen] at h1
        injection h1 with h1
        subst h1
        injection ha with ha
        subst ha
        rw [List.getElem?_set_ne hj] at h2
        obtain ⟨r', hfind', hproc'⟩ := hbusy j b _ h2 hb
        rw [hfind'] at hfind
        injection hfind with h4
        rw [← h4, hproc'] at hqueued
        cases hqueued
      · exfalso
        rw [← hj, List.getElem?_set_self hulen] at h2
        injection h2 with h2
        subst h2
        injection hb with hb
        subst hb
        rw [List.getElem?_set_ne hi] at h1
        obtain ⟨r', hfind', hproc'⟩ := hbusy i a _ h1 ha
        rw [hfind'] at hfind
        injection hfind with h4
        rw [← h4, hproc'] at hqueued
        cases hqueued
      · rw [List.getElem?_set_ne hi] at h1
        rw [List.getElem?_set_ne hj] at h2
        exact hdist i j a b id'' h1 h2 ha hb
  | finish u id bs hu =>
    have hulen : u < s1.units.length := (List.getElem?_eq_some.mp hu).1
    obtain ⟨rp, hfind, hproc⟩ := hbusy u ⟨some id, false⟩ id hu rfl
    refine ⟨?_, ?_, ?_, ?_⟩
    · apply invStore_setJob _ _ _ hstore
      intro r' hm hid
      have hr' : r' = rp := findJob_unique s1.store id rp r' hnd hfind hm hid
      subst hr'
      have hemp : r'.errorMessage = "" :=
        invRec_empty_of_ne_failed r' (hstore r' hm) (by rw [hproc]; decide)
      unfold invRec
      simp [hemp]
    · have h5 : idsNodup (setJob s1.store id
          (fun j => { j with state := State.Finished, payload := bs })) := by
        unfold idsNodup at hnd ⊢
        rw [setJob_ids s1.store id
          (fun j => { j with state := State.Finished, payload := bs }) (fun j => rfl)]
        exact hnd
      exact h5
    · intro v x id' h1 h2
      by_cases hv : u = v
      · subst hv
        rw [List.getElem?_set_self hulen] at h1
        injection h1 with h1
        subst h1
        cases h2
      · rw [List.getElem?_set_ne hv] at h1
        obtain ⟨r', hfind', hproc'⟩ := hbusy v x id' h1 h2
        have hne : id' ≠ id := by
          intro heq
          exact hv (hdist u v ⟨some id, false⟩ x id hu h1 rfl (heq ▸ h2))
        have hres : findJob (setJob s1.store id
              (fun j => { j with state := State.Finished, payload := bs })) id'
            = some r' := by
          rw [findJob_setJob s1.store id id'
            (fun j => { j with state := State.Finished, payload := bs })
            (fun j => rfl), hfind']
          have hne2 : r'.id ≠ id := by
            rw [findJob_id _ _ _ hfind']
            exact hne
          simp [hne2]
        exact ⟨r', hres, hproc'⟩
    · intro i j a b id'' h1 h2 ha hb
      by_cases hi : u = i <;> by_cases hj : u = j
      · rw [← hi, ← hj]
      · exfalso
        rw [← hi, List.getElem?_set_self hulen] at h1
        injection h1 with h1
        subst h1
        cases ha
      · exfalso
        rw [← hj, List.getElem?_set_self hulen] at h2
        injection h2 with h2
        subst h2
        cases hb
      · rw [List.getElem?_set_ne hi] at h1
        rw [List.getElem?_set_ne hj] at h2
        exact hdist i j a b id'' h1 h2 ha hb
  | fail u id msg hu =>
    have hulen : u < s1.units.length := (List.getElem?_eq_some.mp hu).1
    refine ⟨?_, ?_, ?_, ?_⟩
    · apply invStore_setJob _ _ _ hstore
      intro r' hm hid
      unfold invRec
      simp [processing_error_ne_empty msg]
    · have h5 : idsNodup (setJob s1.store id
          (fun j => { j with state := State.Failed,
                             errorMessage := "processing error: " ++ msg })) := by
        unfold idsNodup at hnd ⊢
        rw [setJob_ids s1.store id
          (fun j => { j with state := State.Failed,
                             errorMessage := "processing error: " ++ msg })
          (fun j => rfl)]
        exact hnd
      exact h5
    · intro v x id' h1 h2
      by_cases hv : u = v
      · subst hv
        rw [List.getElem?_set_self hulen] at h1
        injection h1 with h1
        subst h1
        cases h2
      · rw [List.getElem?_set_ne hv] at h1
        obtain ⟨r', hfind', hproc'⟩ := hbusy v x id' h1 h2
        have hne : id' ≠ id := by
          intro heq
          exact hv (hdist u v ⟨some id, false⟩ x id hu h1 rfl (heq ▸ h2))
        have hres : findJob (setJob s1.store id
              (fun j => { j with state := State.Failed,
                                 errorMessage := "processing error: " ++ msg })) id'
            = some r' := by
          rw [findJob_setJob s1.store id id'
            (fun j => { j with state := State.Failed,
                               errorMessage := "processing error: " ++ msg })
            (fun j => rfl), hfind']
          have hne2 : r'.id ≠ id := by
            rw [findJob_id _ _ _ hfind']
            exact hne
          simp [hne2]
        exact ⟨r', hres, hproc'⟩
    · intro i j a b id'' h1 h2 ha hb
      by_cases hi : u = i <;> by_cases hj : u = j
      · rw [← hi, ← hj]
      · exfalso
        rw [← hi, List.getElem?_set_self hulen] at h1
        injection h1 with h1
        subst h1
        cases ha
      · exfalso
        rw [← hj, List.getElem?_set_self hulen] at h2
        injection h2 with h2
        subst h2
        cases hb
      · rw [List.getElem?_set_ne hi] at h1
        rw [List.getElem?_set_ne hj] at h2
        exact hdist i j a b id'' h1 h2 ha hb
  | exitUnit u hc hu =>
    have hulen : u < s1.units.length := (List.getElem?_eq_some.mp hu).1
    refine ⟨hstore, hnd, ?_, ?_⟩
    · intro v x id' h1 h2
      by_cases hv : u = v
      · subst hv
        rw [List.getElem?_set_self hulen] at h1
        injection h1 with h1
        subst h1
        cases h2
      · rw [List.getElem?_set_ne hv] at h1
        exact hbusy v x id' h1 h2
    · intro i j a b id'' h1 h2 ha hb
      by_cases hi : u = i <;> by_cases hj : u = j
      · rw [← hi, ← hj]
      · exfalso
        rw [← hi, List.getElem?_set_self hulen] at h1
        injection h1 with h1
        subst h1
        cases ha
      · exfalso
        rw [← hj, List.getElem?_set_self hulen] at h2
        injection h2 with h2
        subst h2
        cases hb
      · rw [List.getElem?_set_ne hi] at h1
        rw [List.getElem?_set_ne hj] at h2
        exact hdist i j a b id'' h1 h2 ha hb
  | ret hall hret =>
    exact ⟨hstore, hnd, hbusy, hdist⟩

theorem traceInv (s1 : Sys) (evs : List Ev) (s2 : Sys)
    (htr : Trace s1 evs s2) (hinv : SysInv s1) : SysInv s2 := by
  induction htr with
  | nil s => exact hinv
  | cons sa sb sc e evs hst htr2 ih => exact ih (stepInv sa sb e hst hinv)

theorem sysInv_mk (st : Store) (units : List UnitSt) (c r : Bool)
    (h1 : invStore st) (h2 : idsNodup st)
    (hu : ∀ x ∈ units, x.busy = none) :
    SysInv ⟨st, units, c, r⟩ := by
  refine ⟨h1, h2, ?_, ?_⟩
  · intro u x id hget hbusy
    rw [hu x (List.getElem?_mem hget)] at hbusy
    cases hbusy
  · intro i j a b id hga hgb hba hbb
    rw [hu a (List.getElem?_mem hga)] at hba
    cases hba

/-- Claim C6: record invariant preserved by every operation: in every
configuration reachable by engine transitions from a configuration
satisfying the system invariant, every Job Record's error message is
non-empty if and only if its state is Failed. -/
theorem c6_error_iff_failed (s1 : Sys) (evs : List Ev) (s2 : Sys)
    (hinv : SysInv s1) (htr : Trace s1 evs s2) :
    ∀ r ∈ s2.store, (r.errorMessage ≠ "" ↔ r.state = State.Failed) :=
  (traceInv s1 evs s2 htr hinv).1

/-- Witness for claim C6: a one-job store whose job gets claimed and then
fails; the failed record carries a non-empty error message. -/
theorem c6_error_iff_failed_witness :
    ((⟨"j", State.Failed, ['a'], "processing error: " ++ "boom"⟩ : JobRec).errorMessage
        ≠ "" ↔
      (⟨"j", State.Failed, ['a'], "processing error: " ++ "boom"⟩ : JobRec).state
        = State.Failed) :=
  c6_error_iff_failed
    ⟨[⟨"j", State.Queued, ['a'], ""⟩], [⟨none, false⟩], false, false⟩
    [Ev.claim 0 "j", Ev.fail 0 "j" "boom"] _
    (sysInv_mk _ _ _ _
      (by intro r hr
          rcases List.mem_singleton.mp hr with rfl
          unfold invRec
          simp)
      (by unfold idsNodup; simp)
      (by decide))
    (Trace.cons _ _ _ _ _
      (StepL.claim _ 0 "j" ⟨"j", State.Queued, ['a'], ""⟩ rfl rfl (by decide) rfl)
      (Trace.cons _ _ _ _ _
        (StepL.fail _ 0 "j" "boom" (by decide))
        (Trace.nil _)))
    ⟨"j", State.Failed, ['a'], "processing error: " ++ "boom"⟩
    (by decide)

theorem step_units_length (s1 s2 : Sys) (e : Ev) (hs : StepL s1 e s2) :
    s2.units.length = s1.units.length := by
  cases hs <;> simp [List.length_set]

theorem trace_units_length (s1 : Sys) (evs : List Ev) (s2 : Sys)
    (htr : Trace s1 evs s2) : s2.units.length = s1.units.length := by
  induction htr with
  | nil s => rfl
  | cons sa sb sc e evs hst htr2 ih => rw [ih, step_units_length sa sb e hst]

theorem step_retInv (s1 s2 : Sys) (e : Ev) (hs : StepL s1 e s2)
    (h : retInv s1) : retInv s2 := by
  cases hs with
  | create id bs hc hnone => exact h
  | cancel hc => exact h
  | claim u id r hc hu hfind hq =>
    intro hret
    exfalso
    have hx := h hret ⟨none, false⟩ (List.getElem?_mem hu)
    simp at hx
  | finish u id bs hu =>
    intro hret
    exfalso
    have hx := h hret ⟨some id, false⟩ (List.getElem?_mem hu)
    simp at hx
  | fail u id msg hu =>
    intro hret
    exfalso
    have hx := h hret ⟨some id, false⟩ (List.getElem?_mem hu)
    simp at hx
  | exitUnit u hc hu =>
    intro hret
    exfalso
    have hx := h hret ⟨none, false⟩ (List.getElem?_mem hu)
    simp at hx
  | ret hall hret =>
    intro _
    exact hall

theorem trace_retInv (s1 : Sys) (evs : List Ev) (s2 : Sys)
    (htr : Trace s1 evs s2) (h : retInv s1) : retInv s2 := by
  induction htr with
  | nil s => exact h
  | cons sa sb sc e evs hst htr2 ih => exact ih (step_retInv sa sb e hst h)

/-- Claim C7: rendezvous on shutdown: with workerCount ≥ 1, `run` launches
exactly workerCount concurrent execution units, the set of launched units
never grows or shrinks, and in every reachable configuration in which
`run` has returned every launched unit has terminated — no background
work survives the return, even when the cancellation signal fires while
jobs are in flight. -/
theorem c7_run_rendezvous (st : Store) (workers : Int) (s0 : Sys)
    (evs : List Ev) (s2 : Sys)
    (hw : 1 ≤ workers) (hrun : runStart st workers = .ok s0)
    (htr : Trace s0 evs s2) :
    ((s0.units.length : Int) = workers ∧
      s2.units.length = s0.units.length) ∧
      (s2.returned = true → ∀ x ∈ s2.units, x.exited = true) := by
  have hnot : ¬ workers ≤ 0 := by omega
  unfold runStart at hrun
  rw [if_neg hnot] at hrun
  injection hrun with hrun
  refine ⟨⟨?_, trace_units_length s0 evs s2 htr⟩, ?_⟩
  · rw [← hrun]
    simp only [List.length_replicate]
    exact_mod_cast Int.toNat_of_nonneg (by omega)
  · apply trace_retInv s0 evs s2 htr
    rw [← hrun]
    intro hret
    cases hret

/-- Witness for claim C7: one worker over the empty store, empty trace. -/
theorem c7_run_rendezvous_witness :
    (((⟨[], [⟨none, false⟩], false, false⟩ : Sys).units.length : Int) = 1 ∧
      (⟨[], [⟨none, false⟩], false, false⟩ : Sys).units.length
        = (⟨[], [⟨none, false⟩], false, false⟩ : Sys).units.length) ∧
      ((⟨[], [⟨none, false⟩], false, false⟩ : Sys).returned = true →
        ∀ x ∈ (⟨[], [⟨none, false⟩], false, false⟩ : Sys).units,
          x.exited = true) :=
  c7_run_rendezvous [] 1 ⟨[], [⟨none, false⟩], false, false⟩ [] _
    (by decide) rfl (Trace.nil _)

theorem isClaimOf_false (e : Ev) (id : String)
    (h : ∀ u, e ≠ Ev.claim u id) : isClaimOf id e = false := by
  cases e with
  | claim u j =>
    unfold isClaimOf
    by_cases hj : j = id
    · exact absurd (by rw [hj]) (h u)
    · simpa using hj
  | create id2 p => rfl
  | cancel => rfl
  | finish u id2 bs => rfl
  | fail u id2 msg => rfl
  | exitUnit u => rfl
  | ret => rfl

theorem claimCount_cons (e : Ev) (evs : List Ev) (id : String) :
    claimCount (e :: evs) id
      = claimCount evs id + (if isClaimOf id e = true then 1 else 0) := by
  unfold claimCount
  rw [List.countP_cons]

theorem step_jobOut (s1 s2 : Sys) (e : Ev) (id : String)
    (hs : StepL s1 e s2) (hout : jobOut s1 id) :
    jobOut s2 id ∧ ∀ u, e ≠ Ev.claim u id := by
  obtain ⟨r, hfind, hrs⟩ := hout
  cases hs with
  | create id2 bs hc hnone =>
    exact ⟨⟨r, findJob_append_keep _ _ _ _ hfind, hrs⟩,
      fun u h => Ev.noConfusion h⟩
  | cancel hc =>
    exact ⟨⟨r, hfind, hrs⟩, fun u h => Ev.noConfusion h⟩
  | claim u id2 r2 hc hu hfind2 hq2 =>
    have hne : id2 ≠ id := by
      intro heq
      subst heq
      rw [hfind2] at hfind
      injection hfind with h4
      rw [← h4] at hrs
      exact hrs hq2
    constructor
    · refine ⟨r, ?_, hrs⟩
      rw [findJob_setJob s1.store id2 id
        (fun j => { j with state := State.Processing }) (fun j => rfl), hfind]
      have hne2 : r.id ≠ id2 := by
        rw [findJob_id _ _ _ hfind]
        exact fun hh => hne hh.symm
      simp [hne2]
    · intro u' h
      injection h with h1 h2
      exact hne h2
  | finish u id2 bs hu =>
    constructor
    · refine ⟨if r.id == id2
          then { r with state := State.Finished, payload := bs } else r, ?_, ?_⟩
      · rw [findJob_setJob s1.store id2 id
          (fun j => { j with state := State.Finished, payload := bs })
          (fun j => rfl), hfind]
        rfl
      · split
        · simp
        · exact hrs
    · exact fun u' h => Ev.noConfusion h
  | fail u id2 msg hu =>
    constructor
    · refine ⟨if r.id == id2
          then { r with state := State.Failed,
                        errorMessage := "processing error: " ++ msg }
          else r, ?_, ?_⟩
      · rw [findJob_setJob s1.store id2 id
          (fun j => { j with state := State.Failed,
                             errorMessage := "processing error: " ++ msg })
          (fun j => rfl), hfind]
        rfl
      · split
        · simp
        · exact hrs
    · exact fun u' h => Ev.noConfusion h
  | exitUnit u hc hu =>
    exact ⟨⟨r, hfind, hrs⟩, fun u' h => Ev.noConfusion h⟩
  | ret hall hret =>
    exact ⟨⟨r, hfind, hrs⟩, fun u' h => Ev.noConfusion h⟩

theorem trace_jobOut (s1 : Sys) (evs : List Ev) (s2 : Sys) (id : String)
    (htr : Trace s1 evs s2) :
    jobOut s1 id → jobOut s2 id ∧ claimCount evs id = 0 := by
  induction htr with
  | nil s =>
    intro hout
    exact ⟨hout, rfl⟩
  | cons sa sb sc e evs hst htr2 ih =>
    intro hout
    obtain ⟨hout2, hnc⟩ := step_jobOut sa sb e id hst hout
    obtain ⟨hout3, hcnt⟩ := ih hout2
    refine ⟨hout3, ?_⟩
    rw [claimCount_cons, hcnt, isClaimOf_false e id hnc]
    rfl

theorem step_jobQueued (s1 s2 : Sys) (e : Ev) (id : String)
    (hs : StepL s1 e s2) (hinv : SysInv s1) (hq : jobQueued s1 id) :
    (jobQueued s2 id ∧ ∀ u, e ≠ Ev.claim u id) ∨
    ((∃ u, e = Ev.claim u id) ∧ jobOut s2 id) := by
  obtain ⟨r, hfind, hrs⟩ := hq
  obtain ⟨hstore, hnd, hbusy, hdist⟩ := hinv
  cases hs with
  | create id2 bs hc hnone =>
    exact Or.inl ⟨⟨r, findJob_append_keep _ _ _ _ hfind, hrs⟩,
      fun u h => Ev.noConfusion h⟩
  | cancel hc =>
    exact Or.inl ⟨⟨r, hfind, hrs⟩, fun u h => Ev.noConfusion h⟩
  | claim u id2 r2 hc hu hfind2 hq2 =>
    by_cases hid : id2 = id
    · subst hid
      right
      refine ⟨⟨u, rfl⟩, { r2 with state := State.Processing }, ?_, by simp⟩
      rw [findJob_setJob s1.store id2 id2
        (fun j => { j with state := State.Processing }) (fun j => rfl), hfind2]
      simp [findJob_id _ _ _ hfind2]
    · left
      constructor
      · refine ⟨r, ?_, hrs⟩
        rw [findJob_setJob s1.store id2 id
          (fun j => { j with state := State.Processing }) (fun j => rfl), hfind]
        have hne2 : r.id ≠ id2 := by
          rw [findJob_id _ _ _ hfind]
          exact fun hh => hid hh.symm
        simp [hne2]
      · intro u' h
        injection h with h1 h2
        exact hid h2
  | finish u id2 bs hu =>
    have hne : id2 ≠ id := by
      intro heq
      subst heq
      obtain ⟨rp, hfp, hsp⟩ := hbusy u ⟨some id2, false⟩ id2 hu rfl
      rw [hfind] at hfp
      injection hfp with h4
      rw [← h4, hrs] at hsp
      cases hsp
    left
    constructor
    · refine ⟨r, ?_, hrs⟩
      rw [findJob_setJob s1.store id2 id
        (fun j => { j with state := State.Finished, payload := bs })
        (fun j => rfl), hfind]
      have hne2 : r.id ≠ id2 := by
        rw [findJob_id _ _ _ hfind]
        exact fun hh => hne hh.symm
      simp [hne2]
    · exact fun u' h => Ev.noConfusion h
  | fail u id2 msg hu =>
    have hne : id2 ≠ id := by
      intro heq
      subst heq
      obtain ⟨rp, hfp, hsp⟩ := hbusy u ⟨some id2, false⟩ id2 hu rfl
      rw [hfind] at hfp
      injection hfp with h4
      rw [← h4, hrs] at hsp
      cases hsp
    left
    constructor
    · refine ⟨r, ?_, hrs⟩
      rw [findJob_setJob s1.store id2 id
        (fun j => { j with state := State.Failed,
                           errorMessage := "processing error: " ++ msg })
        (fun j => rfl), hfind]
      have hne2 : r.id ≠ id2 := by
        rw [findJob_id _ _ _ hfind]
        exact fun hh => hne hh.symm
      simp [hne2]
    · exact fun u' h => Ev.noConfusion h
  | exitUnit u hc hu =>
    exact Or.inl ⟨⟨r, hfind, hrs⟩, fun u' h => Ev.noConfusion h⟩
  | ret hall hret =>
    exact Or.inl ⟨⟨r, hfind, hrs⟩, fun u' h => Ev.noConfusion h⟩

theorem trace_queued (s1 : Sys) (evs : List Ev) (s2 : Sys) (id : String)
    (htr : Trace s1 evs s2) :
    SysInv s1 → jobQueued s1 id →
      (jobQueued s2 id ∧ claimCount evs id = 0) ∨
      (jobOut s2 id ∧ claimCount evs id = 1) := by
  induction htr with
  | nil s =>
    intro _ hq
    exact Or.inl ⟨hq, rfl⟩
  | cons sa sb sc e evs hst htr2 ih =>
    intro hinv hq
    rcases step_jobQueued sa sb e id hst hinv hq with ⟨hq2, hnc⟩ | ⟨⟨u, rfl⟩, hout2⟩
    · rcases ih (stepInv sa sb e hst hinv) hq2 with ⟨hq3, hcnt⟩ | ⟨hout3, hcnt⟩
      · left
        refine ⟨hq3, ?_⟩
        rw [claimCount_cons, hcnt, isClaimOf_false e id hnc]
        rfl
      · right
        refine ⟨hout3, ?_⟩
        rw [claimCount_cons, hcnt, isClaimOf_false e id hnc]
        rfl
    · obtain ⟨hout3, hcnt⟩ := trace_jobOut sb evs sc id htr2 hout2
      right
      refine ⟨hout3, ?_⟩
      rw [claimCount_cons, hcnt]
      simp [isClaimOf]

theorem not_queued_of_out (s : Sys) (id : String) (ho : jobOut s id) :
    ¬ jobQueued s id := by
  obtain ⟨r, hf, hrs⟩ := ho
  rintro ⟨r', hf', hrs'⟩
  rw [hf] at hf'
  injection hf' with h
  rw [h] at hrs
  exact hrs hrs'

/-- Counterexample to claim C8 as stated: with one running worker (N = 1)
and one queued job (M = 1), the engine may be cancelled before any claim,
the run completes the rendezvous and returns, and the job transitions out
of Queued zero times, not exactly once. -/
theorem c8_claim_counterexample :
    Trace ⟨[⟨"j", State.Queued, [], ""⟩], [⟨none, false⟩], false, false⟩
        [Ev.cancel, Ev.exitUnit 0, Ev.ret]
        ⟨[⟨"j", State.Queued, [], ""⟩], [⟨none, true⟩], true, true⟩ ∧
      jobQueued ⟨[⟨"j", State.Queued, [], ""⟩], [⟨none, true⟩], true, true⟩ "j" ∧
      claimCount [Ev.cancel, Ev.exitUnit 0, Ev.ret] "j" = 0 := by
  refine ⟨?_, ⟨⟨"j", State.Queued, [], ""⟩, rfl, rfl⟩, rfl⟩
  refine Trace.cons _ _ _ _ _ (StepL.cancel _ rfl) ?_
  refine Trace.cons _ _ _ _ _ (StepL.exitUnit _ 0 rfl rfl) ?_
  exact Trace.cons _ _ _ _ _ (StepL.ret _ (by decide) rfl) (Trace.nil _)

/-- Claim C8 (amended): race-freedom of claiming: starting from any
configuration satisfying the system invariant in which a job is Queued,
every execution claims that job at most once — no two workers ever claim
the same job and no job is claimed twice — and the job has transitioned
out of Queued exactly when the execution contains exactly one claim of
it (it is still Queued exactly when it contains none). -/
theorem c8_claim_at_most_once (s1 : Sys) (id : String) (evs : List Ev)
    (s2 : Sys) (hinv : SysInv s1) (hq : jobQueued s1 id)
    (htr : Trace s1 evs s2) :
    claimCount evs id ≤ 1 ∧
      (claimCount evs id = 1 ↔ jobOut s2 id) ∧
      (claimCount evs id = 0 ↔ jobQueued s2 id) := by
  rcases trace_queued s1 evs s2 id htr hinv hq with ⟨hq2, hcnt⟩ | ⟨hout2, hcnt⟩
  · rw [hcnt]
    refine ⟨by omega, ?_, ?_⟩
    · constructor
      · intro h
        exact absurd h (by omega)
      · intro hout
        exact absurd hq2 (not_queued_of_out _ _ hout)
    · exact ⟨fun _ => hq2, fun _ => rfl⟩
  · rw [hcnt]
    refine ⟨by omega, ⟨fun _ => hout2, fun _ => rfl⟩, ?_, ?_⟩
    · intro h
      exact absurd h (by omega)
    · intro hqq
      exact absurd hqq (not_queued_of_out _ _ hout2)

/-- Witness for claim C8: one worker claims the one queued job; the claim
count is one and the job is out of Queued. -/
theorem c8_claim_at_most_once_witness :
    claimCount [Ev.claim 0 "j"] "j" ≤ 1 ∧
      (claimCount [Ev.claim 0 "j"] "j" = 1 ↔
        jobOut ⟨[⟨"j", State.Processing, ['a'], ""⟩],
          [⟨some "j", false⟩], false, false⟩ "j") ∧
      (claimCount [Ev.claim 0 "j"] "j" = 0 ↔
        jobQueued ⟨[⟨"j", State.Processing, ['a'], ""⟩],
          [⟨some "j", false⟩], false, false⟩ "j") :=
  c8_claim_at_most_once
    ⟨[⟨"j", State.Queued, ['a'], ""⟩], [⟨none, false⟩], false, false⟩ "j"
    [Ev.claim 0 "j"] _
    (sysInv_mk _ _ _ _
      (by intro r hr
          rcases List.mem_singleton.mp hr with rfl
          unfold invRec
          simp)
      (by unfold idsNodup; simp)
      (by decide))
    ⟨⟨"j", State.Queued, ['a'], ""⟩, rfl, rfl⟩
    (Trace.cons _ _ _ _ _
      (StepL.claim _ 0 "j" ⟨"j", State.Queued, ['a'], ""⟩ rfl rfl (by decide) rfl)
      (Trace.nil _))

/-- Claim C9: the pi processor's Compute never fails and never observes
cancellation: for every data value, every sample stream and every
context — including one whose cancellation signal has already fired —
Compute returns a nil error; hence a Process invocation can only fail
through GetData or SetData, never through the computation itself. -/
theorem c9_compute_never_fails (ctx : Ctx) (samples : Nat → ℚ × ℚ)
    (pcd : piComputeData) (j : JobProcessingAccess) (e : String) :
    (Compute ctx samples pcd).2 = none ∧
      (Process ctx samples j = some e →
        j.getData = .error e ∨
        ∃ pcd0, j.getData = .ok pcd0 ∧
          j.setData ctx (Compute ctx samples pcd0).1 = some e) := by
  refine ⟨rfl, ?_⟩
  intro hp
  cases hg : j.getData with
  | error e2 =>
    left
    have hpe : Process ctx samples j = some e2 := by
      unfold Process
      rw [hg]
    rw [hpe] at hp
    injection hp with h
    rw [h]
  | ok pcd0 =>
    right
    refine ⟨pcd0, rfl, ?_⟩
    have hpe : Process ctx samples j
        = j.setData ctx (Compute ctx samples pcd0).1 := by
      unfold Process
      rw [hg]
      rfl
    rw [hpe] at hp
    exact hp

/-- Witness for claim C9: a job handle whose GetData fails with "boom";
Process fails with exactly that error, and Compute — under a fired
cancellation signal — still returns a nil error. -/
theorem c9_compute_never_fails_witness :
    (Compute ⟨true⟩ (fun _ => (0, 0)) ⟨0, 0⟩).2 = none ∧
      ((⟨Except.error "boom", fun _ _ => none⟩ : JobProcessingAccess).getData
          = Except.error "boom" ∨
        ∃ pcd0,
          (⟨Except.error "boom", fun _ _ => none⟩ : JobProcessingAccess).getData
            = Except.ok pcd0 ∧
          (⟨Except.error "boom", fun _ _ => none⟩ : JobProcessingAccess).setData
            ⟨true⟩ (Compute ⟨true⟩ (fun _ => (0, 0)) pcd0).1 = some "boom") :=
  ⟨(c9_compute_never_fails ⟨true⟩ (fun _ => (0, 0)) ⟨0, 0⟩
      ⟨Except.error "boom", fun _ _ => none⟩ "boom").1,
   (c9_compute_never_fails ⟨true⟩ (fun _ => (0, 0)) ⟨0, 0⟩
      ⟨Except.error "boom", fun _ _ => none⟩ "boom").2 rfl⟩

theorem computeStep_lt (p : ℚ × ℚ) (ic : Nat) (h : ic < U64) :
    computeStep p ic < U64 := by
  unfold computeStep
  split
  · exact Nat.mod_lt _ (by norm_num [U64])
  · exact h

theorem computeFrom_eq (samples : Nat → ℚ × ℚ) (k i ic : Nat) (h : ic < U64) :
    computeFrom samples i k ic = (ic + countFrom samples i k) % U64 := by
  induction k generalizing i ic with
  | zero =>
    unfold computeFrom countFrom
    simp [Nat.mod_eq_of_lt h]
  | succ k ih =>
    unfold computeFrom countFrom
    rw [ih (i + 1) _ (computeStep_lt (samples i) ic h)]
    unfold computeStep
    by_cases hc : (samples i).1 * (samples i).1 + (samples i).2 * (samples i).2 ≤ 1
    · simp only [hc, if_true]
      rw [Nat.mod_add_mod]
      congr 1
      omega
    · simp only [hc, if_false]
      congr 1
      omega

theorem countFrom_le (samples : Nat → ℚ × ℚ) (k i : Nat) :
    countFrom samples i k ≤ k := by
  induction k generalizing i with
  | zero => exact Nat.le_refl 0
  | succ k ih =>
    unfold countFrom
    split
    · have := ih (i + 1)
      omega
    · have := ih (i + 1)
      omega

/-- Claim C10: Compute accumulates rather than resets: for every valid
data value and every sample stream, Compute leaves Total unchanged and
increments InCircle — with uint64 wrap-around, i.e. modulo 2^64 — by the
number of sampled points (x, y) with x·x + y·y ≤ 1 among the Total points
drawn, a count between 0 and Total inclusive; the prior InCircle value is
never zeroed before counting. -/
theorem c10_compute_accumulates (ctx : Ctx) (samples : Nat → ℚ × ℚ)
    (pcd : piComputeData) (h : pcd.InCircle < U64) :
    (Compute ctx samples pcd).1.Total = pcd.Total ∧
      (Compute ctx samples pcd).1.InCircle
        = (pcd.InCircle + countFrom samples 0 pcd.Total) % U64 ∧
      countFrom samples 0 pcd.Total ≤ pcd.Total := by
  exact ⟨rfl, computeFrom_eq samples pcd.Total 0 pcd.InCircle h,
    countFrom_le samples pcd.Total 0⟩

/-- Witness for claim C10 at InCircle 5, Total 2, all samples at the
origin (inside the circle). -/
theorem c10_compute_accumulates_witness :
    (Compute ⟨false⟩ (fun _ => (0, 0)) ⟨5, 2⟩).1.Total = 2 ∧
      (Compute ⟨false⟩ (fun _ => (0, 0)) ⟨5, 2⟩).1.InCircle
        = (5 + countFrom (fun _ => (0, 0)) 0 2) % U64 ∧
      countFrom (fun _ => ((0 : ℚ), (0 : ℚ))) 0 2 ≤ 2 :=
  c10_compute_accumulates ⟨false⟩ (fun _ => (0, 0)) ⟨5, 2⟩ (by norm_num [U64])

end BackendTest
